import Mathlib

/-!
Verification of the GitReviewer structural indexer.

This file gives a shallow embedding of the indexer subsystem:

* the Python-language parser in src/gitreviewer/parser.py
  (functions text, get_node, and the PythonParser methods parse,
  get_imports, get_module_functions, _get_methods_of_class, get_classes);
* the project walker run_index_command in src/gitreviewer/repl.py;
* the Java signature renderer of src/gitreviewer/tools/parser.py
  (the strip-and-replace signature assembly).

Strings are modelled as lists of characters.  The tree-sitter engine is
modelled abstractly: a parsed file comes with the results that the three
fixed queries of the source would produce on it (an oracle record), and
the extraction code is translated verbatim against those results.  In the
installed tree-sitter python binding, Query.captures returns a dictionary
keyed only by capture names that actually occurred, each mapped to a
non-empty list of nodes, and Query.matches returns a list of pairs of a
pattern index and such a dictionary; dictionaries are modelled as
association lists and the non-empty node lists as a head node paired with
the remaining nodes.  Python exceptions (KeyError) are modelled with
Except.  Byte strings and their utf-8 decoding are identified: a byte
slice is a sublist of the character list.
-/

/-- Strings of the modelled program: lists of characters. -/
abbrev Str := List Char

/-- Coerce a Lean string literal to the model's string type. -/
def str (s : String) : Str := s.data

/-- Newline character used by the renderer and the walker. -/
def nlC : Char := '\n'

/-- A tree-sitter node, reduced to the byte range it spans. -/
structure TSNode where
  start_byte : Nat
  end_byte : Nat
deriving DecidableEq

/-- A non-empty list of captured nodes, as stored in a capture dictionary. -/
abbrev NodeList := TSNode × List TSNode

/-- All nodes of a capture entry, in order. -/
def NodeList.toNodes (l : NodeList) : List TSNode := l.1 :: l.2

/-- A capture dictionary: capture name to captured nodes, only for names
that occurred at least once. -/
abbrev CaptureDict := List (Str × NodeList)

/-- A query match: pattern index paired with its capture dictionary. -/
abbrev TSMatch := Nat × CaptureDict

/-- Message of a python KeyError raised by a dictionary subscript. -/
def pyKeyError (k : Str) : Str := str "KeyError: " ++ k

/-- Python dictionary subscript d[k]: the stored value, or a KeyError. -/
def dictGetE {α : Type} (d : List (Str × α)) (k : Str) : Except Str α :=
  match List.lookup k d with
  | some v => Except.ok v
  | none => Except.error (pyKeyError k)

/-- Whether an Except value is an error (a raised python exception). -/
def isErr {ε α : Type} : Except ε α → Bool
  | Except.error _ => true
  | Except.ok _ => false

/-- Embedding of parser.text: the text content of a tree-sitter node.
Returns the byte slice of the source between the node's start and end
offsets, or the empty string when the node is None. -/
def text (node : Option TSNode) (source_code_bytes : Str) : Str :=
  match node with
  | none => []
  | some n => (source_code_bytes.drop n.start_byte).take (n.end_byte - n.start_byte)

/-- Embedding of parser.get_node: the first node stored under a capture
key of a match, or None when the key is not in the capture dictionary.
The source reads match[1] and then dt[key][0]. -/
def get_node (m : TSMatch) (key : Str) : Option TSNode :=
  match List.lookup key m.2 with
  | some l => some l.1
  | none => none

/-- Results of the three fixed tree-sitter queries of PythonParser on one
file, plus the per-class method query.  This record stands for the
tree-sitter engine: the extraction code never inspects the tree except
through these query results. -/
structure TSQueries where
  /-- Result of lang.query(imports_scm).captures(root): the aggregated
  capture dictionary. -/
  importCaptures : CaptureDict
  /-- Result of lang.query(functions_scm).matches(root). -/
  functionMatches : List TSMatch
  /-- Result of lang.query(classe_scm).matches(root). -/
  classMatches : List TSMatch
  /-- Result of lang.query(methods_scm).matches on a class node; the
  argument is the node passed (always present for matches of the class
  query, whose pattern captures itself as clazz). -/
  methodMatches : Option TSNode → List TSMatch

/-- Embedding of PythonParser.get_imports: reads the list stored under
the key is of the captures dictionary.  The subscript matches[...] raises
a KeyError when the file holds no import at all, because the captures
dictionary then has no entry for that capture name. -/
def get_imports (q : TSQueries) (contents : Str) : Except Str (List Str) :=
  match List.lookup (str "is") q.importCaptures with
  | some ns => Except.ok (ns.toNodes.map (fun i => text (some i) contents))
  | none => Except.error (pyKeyError (str "is"))

/-- The record built for one function or method match.  Both the loop of
get_module_functions and the loop of _get_methods_of_class build their
dictionaries with exactly these four insertions, in this order. -/
def mkFnRecord (contents : Str) (m : TSMatch) : List (Str × Str) :=
  [(str "name", text (get_node m (str "nm")) contents),
   (str "params", text (get_node m (str "param")) contents),
   (str "ret", text (get_node m (str "ret")) contents),
   (str "doc", text (get_node m (str "doc")) contents)]

/-- Embedding of PythonParser.get_module_functions. -/
def get_module_functions (q : TSQueries) (contents : Str) : List (List (Str × Str)) :=
  q.functionMatches.map (mkFnRecord contents)

/-- Embedding of PythonParser._get_methods_of_class, applied to the node
captured under clazz. -/
def get_methods_of_class (q : TSQueries) (contents : Str) (clazz : Option TSNode) :
    List (List (Str × Str)) :=
  (q.methodMatches clazz).map (mkFnRecord contents)

/-- Value stored in a class dictionary: a string, or the method list. -/
inductive CVal where
  | s (v : Str)
  | methods (ms : List (List (Str × Str)))
deriving DecidableEq

/-- Interpolation of a stored class-dictionary value into an f-string;
only string values ever occur under the keys the renderer reads. -/
def CVal.fmt : CVal → Str
  | CVal.s v => v
  | CVal.methods _ => []

/-- A class record: association list standing for the python dict. -/
abbrev ClassDict := List (Str × CVal)

/-- The record built for one class match by the loop of get_classes: name,
params and doc are inserted only when the captured text is non-empty, and
methods is always inserted last. -/
def mkClassDict (q : TSQueries) (contents : Str) (m : TSMatch) : ClassDict :=
  let name := text (get_node m (str "cdn")) contents
  let d0 : ClassDict := if name = [] then [] else [(str "name", CVal.s name)]
  let params := text (get_node m (str "cds")) contents
  let d1 := d0 ++ (if params = [] then [] else [(str "params", CVal.s params)])
  let doc := text (get_node m (str "doc")) contents
  let d2 := d1 ++ (if doc = [] then [] else [(str "doc", CVal.s doc)])
  d2 ++ [(str "methods", CVal.methods (get_methods_of_class q contents (get_node m (str "clazz"))))]

/-- Embedding of PythonParser.get_classes. -/
def get_classes (q : TSQueries) (contents : Str) : List ClassDict :=
  q.classMatches.map (mkClassDict q contents)

/-- The body placeholder sentinel of parser.py. -/
def body_placeholder : Str := str "#...#"

/-- Banner line of a rendered file block. -/
def banner : Str := '#' :: List.replicate 30 '='

/-- The line appended for one module function inside PythonParser.parse. -/
def renderFunctionLine (f : List (Str × Str)) : Except Str Str := do
  let doc ← dictGetE f (str "doc")
  let doc_string := if doc = [] then [] else doc
  let name ← dictGetE f (str "name")
  let params ← dictGetE f (str "params")
  Except.ok (str "def " ++ name ++ params ++ str ":" ++ [nlC] ++ str "  " ++ doc_string)

/-- The line appended for one method of a class inside PythonParser.parse. -/
def renderMethodLine (m : List (Str × Str)) : Except Str Str := do
  let mdoc ← dictGetE m (str "doc")
  let method_doc_string := if mdoc = [] then [] else mdoc ++ [nlC]
  let method_params := match List.lookup (str "params") m with
    | some v => v
    | none => []
  let method_return := match List.lookup (str "ret") m with
    | some v => if v = [] then [] else str " -> " ++ v
    | none => []
  let mname ← dictGetE m (str "name")
  Except.ok (str "  def " ++ mname ++ method_params ++ method_return ++ str ":" ++ [nlC]
    ++ str "    " ++ method_doc_string ++ str "  " ++ body_placeholder)

/-- Method lines of a class, in loop order; a KeyError aborts the loop. -/
def renderMethodLines : List (List (Str × Str)) → Except Str (List Str)
  | [] => Except.ok []
  | m :: rest => do
      let l ← renderMethodLine m
      let ls ← renderMethodLines rest
      Except.ok (l :: ls)

/-- All lines appended for one class record inside PythonParser.parse:
the class header, its method lines, and a trailing blank line.  The
subscripts on the keys name and methods raise when the key is absent;
doc and params are read through membership tests. -/
def renderClassBlock (c : ClassDict) : Except Str (List Str) := do
  let class_doc_string := match List.lookup (str "doc") c with
    | some v => v.fmt
    | none => []
  let class_params := match List.lookup (str "params") c with
    | some v => v.fmt
    | none => []
  let cname ← dictGetE c (str "name")
  let header := str "class " ++ cname.fmt ++ class_params ++ str ":" ++ [nlC]
    ++ str "  " ++ class_doc_string
  let msv ← dictGetE c (str "methods")
  let ms := match msv with
    | CVal.methods l => l
    | CVal.s _ => []
  let mlines ← renderMethodLines ms
  Except.ok (header :: (mlines ++ [[]]))

/-- Lines appended for the whole class list, in loop order. -/
def renderClassBlocks : List ClassDict → Except Str (List Str)
  | [] => Except.ok []
  | c :: rest => do
      let b ← renderClassBlock c
      let bs ← renderClassBlocks rest
      Except.ok (b ++ bs)

/-- Lines appended for the module functions, in loop order. -/
def renderFunctionLines : List (List (Str × Str)) → Except Str (List Str)
  | [] => Except.ok []
  | f :: rest => do
      let l ← renderFunctionLine f
      let ls ← renderFunctionLines rest
      Except.ok (l :: ls)

/-- Embedding of PythonParser.parse.  The argument relpath stands for
os.path.relpath(file, os.getcwd()); contents is the byte content of the
file and q the tree-sitter query results for it.  A zero-byte file
returns None before any parsing; otherwise the output lines are
assembled and joined with newlines.  A raised KeyError is an error
value. -/
def PythonParser.parse (q : TSQueries) (relpath : Str) (contents : Str) :
    Except Str (Option Str) :=
  if contents.length = 0 then Except.ok none
  else do
    let imports ← get_imports q contents
    let fnDicts := get_module_functions q contents
    let fnLines ← renderFunctionLines fnDicts
    let classDicts := get_classes q contents
    let classLines ← renderClassBlocks classDicts
    let output_lines :=
      [banner, str "# file: " ++ relpath, banner]
      ++ imports ++ (if imports = [] then [] else [[]])
      ++ fnLines ++ (if fnDicts = [] then [] else [[]])
      ++ classLines
    Except.ok (some (List.intercalate [nlC] output_lines))

/-- The directory denylist of run_index_command. -/
def ignored_directories : List Str :=
  [str ".venv", str ".git", str "__pycache__", str ".pytest_cache", str "build", str "dist"]

/-- One file met by the directory walk: the directory components under
the root, the file name, the raw content, the tree-sitter query results
for that content, and the path rendered into the file banner. -/
structure WalkFile where
  dirs : List Str
  name : Str
  contents : Str
  queries : TSQueries
  relpath : Str

/-- Whether the walk prunes this file: some component of its directory
path is in the denylist (dirs[:] filtering removes the whole subtree). -/
def inIgnoredDir (f : WalkFile) : Bool :=
  f.dirs.any (fun d => ignored_directories.contains d)

/-- Whether the file passes the extension filter. -/
def isPyFile (f : WalkFile) : Bool :=
  (str ".py").isSuffixOf f.name

/-- The per-file pipeline invoked by the walker. -/
def parseOf (f : WalkFile) : Except Str (Option Str) :=
  PythonParser.parse f.queries f.relpath f.contents

/-- The 80-dash separator rule written between file blocks. -/
def sep80 : Str := List.replicate 80 '-'

/-- What the walker writes for one successfully parsed file: the parsed
content, a newline, the separator rule, a newline. -/
def blockWrap (s : Str) : Str := s ++ nlC :: (sep80 ++ [nlC])

/-- Accumulated output-file content and success counter of the walker. -/
structure IndexState where
  artifact : Str
  count : Nat
deriving DecidableEq

/-- One iteration of the walker loop of run_index_command: prune ignored
directories, filter by extension, parse; a falsy result (None or the
empty string) or a raised exception skips the file, otherwise the block
and a separator are written and the counter incremented. -/
def stepWalk (st : IndexState) (f : WalkFile) : IndexState :=
  if inIgnoredDir f then st
  else if isPyFile f then
    match parseOf f with
    | Except.ok (some s) =>
        if s = [] then st
        else { artifact := st.artifact ++ blockWrap s, count := st.count + 1 }
    | _ => st
  else st

/-- Embedding of repl.run_index_command over the files met by the walk,
in walk order.  The preliminary is_python_project scan runs over the
unpruned walk, so it sees files inside ignored directories too; when it
finds no python file at all the command returns before the output file
is opened, modelled by the value none.  Otherwise the result is the
written artifact and the reported count. -/
def run_index_command (files : List WalkFile) : Option (Str × Nat) :=
  if files.any isPyFile then
    let st := files.foldl stepWalk { artifact := [], count := 0 }
    some (st.artifact, st.count)
  else none

/-- The block a file contributes to the artifact, if any: mirrors the
skip conditions of stepWalk. -/
def successBlock (f : WalkFile) : Option Str :=
  if inIgnoredDir f then none
  else if isPyFile f then
    match parseOf f with
    | Except.ok (some s) => if s = [] then none else some s
    | _ => none
  else none

/-- All blocks written during a walk, in order. -/
def successBlocks (files : List WalkFile) : List Str :=
  files.filterMap successBlock

/-- Concatenation of wrapped blocks: the artifact layout. -/
def joinBlocks (bs : List Str) : Str := (bs.map blockWrap).flatten

/-- Split a string into its newline-separated lines (accumulator holds
the current line reversed). -/
def splitLinesAux : Str → Str → List Str
  | acc, [] => [acc.reverse]
  | acc, c :: rest =>
      if c = nlC then acc.reverse :: splitLinesAux [] rest
      else splitLinesAux (c :: acc) rest

/-- The lines of a string, splitting at every newline. -/
def splitLines (s : Str) : List Str := splitLinesAux [] s

/-!
Java signature renderer of src/gitreviewer/tools/parser.py.

Every signature there is assembled by a python f-string joining its
fragments with single spaces, then .strip() and .replace of two spaces
by one are applied.  The fragments come from helper extractors that join
tokens with single separating spaces, so a well-formed fragment is empty
or has no leading or trailing whitespace and no two adjacent spaces.
-/

/-- Whitespace characters removed by python str.strip with no argument. -/
def isWsChar (c : Char) : Bool :=
  c = ' ' || c = '\t' || c = '\n' || c = '\r' || c = '\x0b' || c = '\x0c'

/-- Embedding of python str.strip(): remove leading and trailing
whitespace. -/
def pyStrip (s : Str) : Str :=
  ((s.dropWhile isWsChar).reverse.dropWhile isWsChar).reverse

/-- Embedding of python .replace of two spaces by one: a single
left-to-right pass; on a match both spaces are consumed and one emitted,
on a mismatch one character is emitted and the scan moves on by one. -/
def pyReplace2Space : Str → Str
  | [] => []
  | [c] => [c]
  | c :: d :: rest =>
      if c = ' ' ∧ d = ' ' then ' ' :: pyReplace2Space rest
      else c :: pyReplace2Space (d :: rest)

/-- Whether a string holds two adjacent spaces somewhere. -/
def hasRun2 : Str → Bool
  | c :: d :: rest => ((c == ' ') && (d == ' ')) || hasRun2 (d :: rest)
  | _ => false

/-- Embedding of the class-signature f-string of parse_java_file
(modifiers, node type, name, type parameters, extends clause, implements
clause), followed by strip and the double-space replace. -/
def classSignature (modifiers node_type name type_parameters
    extends_clause implements_clause : Str) : Str :=
  pyReplace2Space (pyStrip
    (modifiers ++ ' ' :: node_type ++ ' ' :: name ++ type_parameters
      ++ ' ' :: extends_clause ++ ' ' :: implements_clause))

/-- Embedding of the method-signature f-string of parse_java_file
(modifiers, type parameters, return type, name, parameter list, throws
clause), followed by strip and the double-space replace. -/
def methodSignature (method_modifiers method_type_parameters return_type
    method_name method_params throws_clause : Str) : Str :=
  pyReplace2Space (pyStrip
    (method_modifiers ++ ' ' :: method_type_parameters ++ ' ' :: return_type
      ++ ' ' :: method_name ++ '(' :: method_params ++ ')' :: ' ' :: throws_clause))

/-- Embedding of the field-signature f-string of parse_java_file
(modifiers, type, name), followed by strip and the double-space
replace. -/
def fieldSignature (field_modifiers field_type field_name : Str) : Str :=
  pyReplace2Space (pyStrip
    (field_modifiers ++ ' ' :: field_type ++ ' ' :: field_name))

/-- Embedding of the constructor-signature f-string of parse_java_file
(modifiers, name, parameter list, throws clause), followed by strip and
the double-space replace. -/
def constructorSignature (constructor_modifiers constructor_name
    constructor_params throws_clause : Str) : Str :=
  pyReplace2Space (pyStrip
    (constructor_modifiers ++ ' ' :: constructor_name
      ++ '(' :: constructor_params ++ ')' :: ' ' :: throws_clause))

/-- A well-formed non-empty signature fragment: no leading or trailing
whitespace and no two adjacent spaces, as produced by the single-space
token joins of the extractor helpers. -/
def FragStrict (s : Str) : Prop :=
  s ≠ [] ∧ s.head?.any isWsChar = false ∧ s.getLast?.any isWsChar = false
    ∧ hasRun2 s = false

/-- An optional signature fragment: empty, or well formed. -/
def FragOpt (s : Str) : Prop := s = [] ∨ FragStrict s

instance (s : Str) : Decidable (FragStrict s) := by
  unfold FragStrict; infer_instance

instance (s : Str) : Decidable (FragOpt s) := by
  unfold FragOpt; infer_instance

/-!
Concrete instances used by counterexamples and witnesses.
-/

/-- Query results of a file whose only content is one import statement
spanning bytes 0 to 9. -/
def okQueries : TSQueries :=
  { importCaptures := [(str "is", (⟨0, 9⟩, []))]
    functionMatches := []
    classMatches := []
    methodMatches := fun _ => [] }

/-- A first indexable file. -/
def fileA : WalkFile :=
  { dirs := [], name := str "a.py", contents := str "import os"
    queries := okQueries, relpath := str "a.py" }

/-- A second indexable file. -/
def fileB : WalkFile :=
  { dirs := [], name := str "b.py", contents := str "import os"
    queries := okQueries, relpath := str "b.py" }

/-- The artifact written for the two-file walk. -/
def witnessArtifact : Str :=
  ([fileA, fileB].foldl stepWalk { artifact := [], count := 0 }).artifact

/-- A zero-byte python file. -/
def emptyFile : WalkFile :=
  { dirs := [], name := str "empty.py", contents := []
    queries := okQueries, relpath := str "empty.py" }

/-- A file that does not pass the extension filter. -/
def readmeFile : WalkFile :=
  { dirs := [], name := str "README.md", contents := str "hello"
    queries := okQueries, relpath := str "README.md" }

/-- A class-query match whose capture dictionary binds clazz but not the
name capture cdn: the malformed-parse case. -/
def classNoNameMatch : TSMatch := (0, [(str "clazz", (⟨9, 21⟩, []))])

/-- Query results of a file with one import and one class match lacking
the name capture. -/
def noNameQueries : TSQueries :=
  { importCaptures := [(str "is", (⟨0, 8⟩, []))]
    functionMatches := []
    classMatches := [classNoNameMatch]
    methodMatches := fun _ => [] }

/-- Content of the file behind noNameQueries. -/
def noNameSrc : Str := str "import x" ++ nlC :: str "class : pass"

/-- Query results of a non-empty file holding no import statement at
all: the captures dictionary has no entry for the capture name is. -/
def noImportQueries : TSQueries :=
  { importCaptures := []
    functionMatches := []
    classMatches := []
    methodMatches := fun _ => [] }

/-- Content of the file behind noImportQueries. -/
def noImportSrc : Str := str "x = 1"

/-!
Theorems.  First the walker structure lemmas, then the per-claim
theorems, counterexamples and witnesses.
-/

theorem stepWalk_eq_successBlock (st : IndexState) (f : WalkFile) :
    stepWalk st f = match successBlock f with
      | none => st
      | some s => { artifact := st.artifact ++ blockWrap s, count := st.count + 1 } := by
  unfold stepWalk successBlock
  cases hI : inIgnoredDir f
  · cases hP : isPyFile f
    · simp
    · simp only [if_true]
      cases hR : parseOf f with
      | error e => simp
      | ok v =>
          cases v with
          | none => simp
          | some s =>
              by_cases hs : s = [] <;> simp [hs]
  · simp

theorem foldl_stepWalk (files : List WalkFile) (st : IndexState) :
    files.foldl stepWalk st =
      { artifact := st.artifact ++ joinBlocks (successBlocks files),
        count := st.count + (successBlocks files).length } := by
  induction files generalizing st with
  | nil => simp [successBlocks, joinBlocks]
  | cons f fs ih =>
      rw [List.foldl_cons, ih, stepWalk_eq_successBlock]
      cases hf : successBlock f
      · simp [successBlocks, List.filterMap_cons, hf, joinBlocks]
      · simp only [successBlocks, List.filterMap_cons, hf, joinBlocks, List.map_cons,
          List.flatten_cons, List.length_cons]
        rw [IndexState.mk.injEq]
        exact ⟨by simp [List.append_assoc], by omega⟩

theorem splitLinesAux_append (acc x y : Str) :
    splitLinesAux acc (x ++ nlC :: y) = splitLinesAux acc x ++ splitLinesAux [] y := by
  induction x generalizing acc with
  | nil => simp [splitLinesAux]
  | cons c cs ih =>
      by_cases hc : c = nlC
      · simp [splitLinesAux, hc, ih]
      · simp [splitLinesAux, hc, ih]

theorem splitLines_append (x y : Str) :
    splitLines (x ++ nlC :: y) = splitLines x ++ splitLines y :=
  splitLinesAux_append [] x y

theorem splitLinesAux_no_nl (acc s : Str) (h : nlC ∉ s) :
    splitLinesAux acc s = [acc.reverse ++ s] := by
  induction s generalizing acc with
  | nil => simp [splitLinesAux]
  | cons c cs ih =>
      have hc : ¬ c = nlC := fun e => h (e ▸ List.mem_cons_self c cs)
      have hcs : nlC ∉ cs := fun e => h (List.mem_cons_of_mem c e)
      simp [splitLinesAux, hc, ih _ hcs]

theorem splitLines_no_nl (s : Str) (h : nlC ∉ s) : splitLines s = [s] := by
  simpa using splitLinesAux_no_nl [] s h

theorem nl_not_mem_sep80 : nlC ∉ sep80 := by decide

theorem splitLines_joinBlocks (bs : List Str) :
    splitLines (joinBlocks bs)
      = (bs.map (fun b => splitLines b ++ [sep80])).flatten ++ [[]] := by
  induction bs with
  | nil => simp [joinBlocks, splitLines, splitLinesAux]
  | cons b bs ih =>
      have h1 : joinBlocks (b :: bs) = b ++ nlC :: (sep80 ++ nlC :: joinBlocks bs) := by
        simp [joinBlocks, blockWrap, List.append_assoc]
      rw [h1, splitLines_append, splitLines_append, splitLines_no_nl sep80 nl_not_mem_sep80, ih]
      simp

theorem splitLinesAux_ne_nil (acc s : Str) : splitLinesAux acc s ≠ [] := by
  induction s generalizing acc with
  | nil => simp [splitLinesAux]
  | cons c cs ih =>
      by_cases hc : c = nlC <;> simp [splitLinesAux, hc, ih]

theorem splitLines_ne_nil (s : Str) : splitLines s ≠ [] :=
  splitLinesAux_ne_nil [] s

theorem run_index_command_eq (files : List WalkFile) (a : Str) (n : Nat)
    (h : run_index_command files = some (a, n)) :
    a = joinBlocks (successBlocks files) ∧ n = (successBlocks files).length := by
  unfold run_index_command at h
  by_cases hp : files.any isPyFile
  · rw [if_pos hp, foldl_stepWalk] at h
    simp only [Option.some.injEq, Prod.mk.injEq] at h
    obtain ⟨h1, h2⟩ := h
    constructor
    · rw [← h1]; simp
    · omega
  · rw [if_neg hp] at h
    exact absurd h (by simp)

theorem count_sep_flatten (bs : List Str) (h : ∀ b ∈ bs, sep80 ∉ splitLines b) :
    ((bs.map (fun b => splitLines b ++ [sep80])).flatten ++ [[]]).count sep80 = bs.length := by
  induction bs with
  | nil => simp [List.count_cons, sep80]
  | cons b bs ih =>
      rw [List.map_cons, List.flatten_cons, List.append_assoc, List.count_append,
        List.count_append]
      rw [List.count_eq_zero.mpr (h b (List.mem_cons_self b bs))]
      rw [ih (fun x hx => h x (List.mem_cons_of_mem b hx))]
      simp [List.count_cons]
      omega

theorem getLast_flatten_sep (bs : List Str) (h : bs ≠ []) :
    ((bs.map (fun b => splitLines b ++ [sep80])).flatten).getLast? = some sep80 := by
  induction bs with
  | nil => exact absurd rfl h
  | cons b bs ih =>
      cases bs with
      | nil =>
          rw [List.map_cons, List.map_nil, List.flatten_cons, List.flatten_nil,
            List.append_nil, List.getLast?_append_of_ne_nil _ (by simp)]
          rfl
      | cons b2 t =>
          rw [List.map_cons, List.flatten_cons,
            List.getLast?_append_of_ne_nil _ (by simp [splitLines_ne_nil])]
          exact ih (by simp)

/-- C9: in every completed run of run_index_command that writes an
artifact, the reported count of successfully indexed files equals the
number of 80-dash separator lines written: each file whose parse result
is a non-empty string contributes exactly one block immediately followed
by exactly one separator line, including after the final block. -/
theorem claim_C9 (files : List WalkFile) (a : Str) (n : Nat)
    (h : run_index_command files = some (a, n))
    (hclean : ∀ b ∈ successBlocks files, sep80 ∉ splitLines b) :
    n = (successBlocks files).length
    ∧ a = joinBlocks (successBlocks files)
    ∧ (splitLines a).count sep80 = n := by
  obtain ⟨ha, hn⟩ := run_index_command_eq files a n h
  refine ⟨hn, ha, ?_⟩
  rw [ha, splitLines_joinBlocks, count_sep_flatten _ hclean, hn]

set_option maxRecDepth 100000 in
/-- C9 witness: the two-file run writes an artifact with two separator
lines and reports the count two. -/
theorem claim_C9_witness :
    (2 : Nat) = (successBlocks [fileA, fileB]).length
    ∧ witnessArtifact = joinBlocks (successBlocks [fileA, fileB])
    ∧ (splitLines witnessArtifact).count sep80 = 2 :=
  claim_C9 [fileA, fileB] witnessArtifact 2 (by decide) (by decide)

/-- C1 counterexample: over a root with two indexable files, the written
artifact does end with a separator line (its final content line is the
80-dash rule), contradicting the claim that no separator line stands at
the very end; the reported count is two. -/
theorem claim_C1_counterexample :
    (run_index_command [fileA, fileB]).map
      (fun p => ((splitLines p.1).getLast? == some ([] : Str))
        && ((splitLines p.1).dropLast.getLast? == some sep80)
        && (p.2 == 2))
      = some true := by decide

/-- C1 as amended: the artifact decomposes into one block followed by
exactly one separator line per indexed file — hence exactly one
separator between any two consecutive blocks and none at the very start
— but one separator line also follows the final block, so a separator
stands at the very end of the artifact. -/
theorem claim_C1 (files : List WalkFile) (a : Str) (n : Nat)
    (h : run_index_command files = some (a, n))
    (hclean : ∀ b ∈ successBlocks files, sep80 ∉ splitLines b)
    (hne : successBlocks files ≠ []) :
    splitLines a
      = ((successBlocks files).map (fun b => splitLines b ++ [sep80])).flatten ++ [[]]
    ∧ (splitLines a).head? ≠ some sep80
    ∧ (splitLines a).dropLast.getLast? = some sep80 := by
  obtain ⟨ha, _⟩ := run_index_command_eq files a n h
  have hd : splitLines a
      = ((successBlocks files).map (fun b => splitLines b ++ [sep80])).flatten ++ [[]] := by
    rw [ha, splitLines_joinBlocks]
  refine ⟨hd, ?_, ?_⟩
  · rw [hd]
    cases hbs : successBlocks files with
    | nil => exact absurd hbs hne
    | cons b bs =>
        rw [List.map_cons, List.flatten_cons]
        simp only [List.append_assoc]
        rw [List.head?_append_of_ne_nil _ (splitLines_ne_nil b)]
        intro hcon
        have hb : b ∈ successBlocks files := by rw [hbs]; exact List.mem_cons_self b bs
        exact hclean b hb (List.mem_of_mem_head? hcon)
  · rw [hd, List.dropLast_concat]
    exact getLast_flatten_sep _ hne

set_option maxRecDepth 100000 in
/-- C1 witness for the amended claim at the two-file run. -/
theorem claim_C1_witness :
    splitLines witnessArtifact
      = ((successBlocks [fileA, fileB]).map (fun b => splitLines b ++ [sep80])).flatten ++ [[]]
    ∧ (splitLines witnessArtifact).head? ≠ some sep80
    ∧ (splitLines witnessArtifact).dropLast.getLast? = some sep80 :=
  claim_C1 [fileA, fileB] witnessArtifact 2 (by decide) (by decide) (by decide)

/-- C5: for every captured tree node, the text extracted for it is
exactly the slice of the original source between the node's start and
end offsets: position i of the extracted text is position
start plus i of the source whenever i falls inside the node's span, and
nothing lies beyond the span. -/
theorem claim_C5 (n : TSNode) (source_code_bytes : Str) (i : Nat) :
    (text (some n) source_code_bytes)[i]?
      = if i < n.end_byte - n.start_byte
        then source_code_bytes[n.start_byte + i]?
        else none := by
  unfold text
  rw [List.getElem?_take, List.getElem?_drop]

/-- C6: a zero-byte input file makes the parser return None without
attempting a parse (the query results are never consulted), raises no
exception, and the walker step leaves both the artifact and the count
unchanged, so the file contributes no entry and is not counted. -/
theorem claim_C6 (st : IndexState) (f : WalkFile) (h : f.contents = []) :
    (∀ q : TSQueries, ∀ relpath : Str,
      PythonParser.parse q relpath f.contents = Except.ok none)
    ∧ stepWalk st f = st := by
  constructor
  · intro q relpath
    rw [h]
    rfl
  · have hp : parseOf f = Except.ok none := by
      unfold parseOf
      rw [h]
      rfl
    rw [stepWalk_eq_successBlock]
    unfold successBlock
    rw [hp]
    cases hI : inIgnoredDir f <;> cases hP : isPyFile f <;> simp

/-- C6 witness at a concrete zero-byte file. -/
theorem claim_C6_witness :
    ((∀ q : TSQueries, ∀ relpath : Str,
      PythonParser.parse q relpath emptyFile.contents = Except.ok none)
    ∧ stepWalk { artifact := [], count := 0 } emptyFile = { artifact := [], count := 0 }) :=
  claim_C6 { artifact := [], count := 0 } emptyFile rfl

/-- C7: when no file under the root has the python extension, the walk
aborts before the output file is opened: run_index_command returns
nothing and no artifact, not even an empty one, is produced. -/
theorem claim_C7 (files : List WalkFile) (h : ∀ f ∈ files, isPyFile f = false) :
    run_index_command files = none := by
  unfold run_index_command
  have hany : files.any isPyFile = false := by
    rw [List.any_eq_false]
    intro f hf
    simp [h f hf]
  simp [hany]

/-- C7 witness at a one-file root without python files. -/
theorem claim_C7_witness : run_index_command [readmeFile] = none :=
  claim_C7 [readmeFile] (by decide)

/-- C8: files lying under a denylisted directory contribute nothing to
the walk: removing them from the walked sequence changes neither the
written artifact nor the reported count, because the walker step is the
identity on every such file. -/
theorem claim_C8 (files : List WalkFile) (st : IndexState) :
    (files.filter (fun f => !inIgnoredDir f)).foldl stepWalk st
      = files.foldl stepWalk st := by
  induction files generalizing st with
  | nil => rfl
  | cons f fs ih =>
      cases hI : inIgnoredDir f
      · rw [List.filter_cons_of_pos (by simp [hI]), List.foldl_cons, List.foldl_cons, ih]
      · have hstep : stepWalk st f = st := by
          unfold stepWalk
          simp [hI]
        rw [List.filter_cons_of_neg (by simp [hI]), List.foldl_cons, hstep, ih]

theorem renderFunctionLines_ok (contents : Str) (l : List TSMatch) :
    ∃ vs, renderFunctionLines (l.map (mkFnRecord contents)) = Except.ok vs := by
  induction l with
  | nil => exact ⟨[], rfl⟩
  | cons m rest ih =>
      obtain ⟨vs, hvs⟩ := ih
      obtain ⟨v, hv⟩ : ∃ v, renderFunctionLine (mkFnRecord contents m) = Except.ok v :=
        ⟨_, rfl⟩
      refine ⟨v :: vs, ?_⟩
      rw [List.map_cons]
      unfold renderFunctionLines
      rw [hv, hvs]
      rfl

theorem mkClassDict_lookup_name_none (q : TSQueries) (contents : Str) (m : TSMatch)
    (h : text (get_node m (str "cdn")) contents = []) :
    List.lookup (str "name") (mkClassDict q contents m) = none := by
  unfold mkClassDict
  rw [h]
  by_cases h2 : text (get_node m (str "cds")) contents = [] <;>
    by_cases h3 : text (get_node m (str "doc")) contents = [] <;>
      simp [h2, h3, List.lookup] <;> rfl

theorem renderClassBlock_err (c : ClassDict)
    (h : List.lookup (str "name") c = none) :
    renderClassBlock c = Except.error (pyKeyError (str "name")) := by
  unfold renderClassBlock dictGetE
  rw [h]
  rfl

theorem renderClassBlocks_err (cs : List ClassDict)
    (h : ∃ c ∈ cs, List.lookup (str "name") c = none) :
    isErr (renderClassBlocks cs) = true := by
  induction cs with
  | nil =>
      obtain ⟨c0, hc0, _⟩ := h
      exact absurd hc0 (List.not_mem_nil c0)
  | cons c rest ih =>
      obtain ⟨c0, hc0, hn⟩ := h
      by_cases hcc : List.lookup (str "name") c = none
      · unfold renderClassBlocks
        rw [renderClassBlock_err c hcc]
        rfl
      · have hmem : c0 ∈ rest := by
          rcases List.mem_cons.mp hc0 with h1 | h1
          · exact absurd (h1 ▸ hn) hcc
          · exact h1
        unfold renderClassBlocks
        cases hcb : renderClassBlock c with
        | error e => rfl
        | ok b =>
            have hrest := ih ⟨c0, hmem, hn⟩
            cases hr : renderClassBlocks rest with
            | error e2 => rfl
            | ok bs => rw [hr] at hrest; exact absurd hrest (by simp [isErr])

theorem parse_isErr_of_no_name (q : TSQueries) (relpath contents : Str)
    (hne : contents ≠ [])
    (himp : (List.lookup (str "is") q.importCaptures).isSome = true)
    (hcls : ∃ m ∈ q.classMatches, text (get_node m (str "cdn")) contents = []) :
    isErr (PythonParser.parse q relpath contents) = true := by
  unfold PythonParser.parse
  rw [if_neg (by simp [hne])]
  obtain ⟨ns, hns⟩ := Option.isSome_iff_exists.mp himp
  have himports : get_imports q contents
      = Except.ok (ns.toNodes.map (fun i => text (some i) contents)) := by
    unfold get_imports
    rw [hns]
  obtain ⟨vs, hvs⟩ := renderFunctionLines_ok contents q.functionMatches
  have hclerr : isErr (renderClassBlocks (get_classes q contents)) = true := by
    apply renderClassBlocks_err
    obtain ⟨m, hm, hmn⟩ := hcls
    exact ⟨mkClassDict q contents m,
      List.mem_map_of_mem (mkClassDict q contents) hm,
      mkClassDict_lookup_name_none q contents m hmn⟩
  cases hcb : renderClassBlocks (get_classes q contents) with
  | ok bs => rw [hcb] at hclerr; exact absurd hclerr (by simp [isErr])
  | error e =>
      simp only [himports, get_module_functions, hvs, hcb, bind, Except.bind, isErr]

/-- C2 as amended: for a class match whose name capture is absent or
empty, get_classes still emits a record for the entity (it is never
dropped silently), but the record omits the name key instead of storing
an empty string, and the render stage of parse then raises a KeyError on
the missing key instead of rendering the entry. -/
theorem claim_C2 (q : TSQueries) (relpath contents : Str) (m : TSMatch)
    (hm : m ∈ q.classMatches)
    (hname : text (get_node m (str "cdn")) contents = [])
    (himp : (List.lookup (str "is") q.importCaptures).isSome = true)
    (hne : contents ≠ []) :
    mkClassDict q contents m ∈ get_classes q contents
    ∧ List.lookup (str "name") (mkClassDict q contents m) = none
    ∧ isErr (PythonParser.parse q relpath contents) = true := by
  refine ⟨List.mem_map_of_mem _ hm,
    mkClassDict_lookup_name_none q contents m hname, ?_⟩
  exact parse_isErr_of_no_name q relpath contents hne himp ⟨m, hm, hname⟩

/-- C2 counterexample: at a concrete file with one class match lacking
the name capture, the emitted record does not hold an empty-string name
field (the key is absent), and the pipeline raises instead of rendering
the entry, contradicting the claim. -/
theorem claim_C2_counterexample :
    ¬ (List.lookup (str "name") (mkClassDict noNameQueries noNameSrc classNoNameMatch)
        = some (CVal.s []))
    ∧ isErr (PythonParser.parse noNameQueries (str "c.py") noNameSrc) = true := by
  decide

/-- C2 witness for the amended claim at the same concrete input. -/
theorem claim_C2_witness :
    mkClassDict noNameQueries noNameSrc classNoNameMatch
      ∈ get_classes noNameQueries noNameSrc
    ∧ List.lookup (str "name") (mkClassDict noNameQueries noNameSrc classNoNameMatch)
      = none
    ∧ isErr (PythonParser.parse noNameQueries (str "c.py") noNameSrc) = true :=
  claim_C2 noNameQueries (str "c.py") noNameSrc classNoNameMatch
    (by decide) (by decide) (by decide) (by decide)

/-- C3 as amended: get_node yields None for a capture key absent from a
match and text of None is the empty string, so function, class and
method extraction tolerates absent optional captures without raising;
but get_imports subscripts the captures dictionary directly, so it
raises a KeyError on a file with no import statement at all, and only
succeeds when the import capture occurred. -/
theorem claim_C3 (m : TSMatch) (k : Str) (q qi : TSQueries) (contents : Str)
    (ns : NodeList)
    (hk : List.lookup k m.2 = none)
    (hno : List.lookup (str "is") q.importCaptures = none)
    (hyes : List.lookup (str "is") qi.importCaptures = some ns) :
    get_node m k = none
    ∧ text none contents = []
    ∧ get_imports q contents = Except.error (pyKeyError (str "is"))
    ∧ get_imports qi contents
        = Except.ok (ns.toNodes.map (fun i => text (some i) contents)) := by
  refine ⟨?_, rfl, ?_, ?_⟩
  · unfold get_node
    rw [hk]
  · unfold get_imports
    rw [hno]
  · unfold get_imports
    rw [hyes]

/-- C3 counterexample: extracting imports from a concrete non-empty file
holding no import statement raises a KeyError, and the whole per-file
parse raises with it, contradicting the never-crash claim. -/
theorem claim_C3_counterexample :
    get_imports noImportQueries noImportSrc = Except.error (pyKeyError (str "is"))
    ∧ isErr (PythonParser.parse noImportQueries (str "m.py") noImportSrc) = true :=
  ⟨rfl, rfl⟩

/-- C3 witness for the amended claim at concrete inputs. -/
theorem claim_C3_witness :
    get_node classNoNameMatch (str "cdn") = none
    ∧ text none noImportSrc = []
    ∧ get_imports noImportQueries noImportSrc = Except.error (pyKeyError (str "is"))
    ∧ get_imports okQueries noImportSrc
        = Except.ok ((NodeList.toNodes (⟨0, 9⟩, [])).map
            (fun i => text (some i) noImportSrc)) :=
  claim_C3 classNoNameMatch (str "cdn") noImportQueries okQueries noImportSrc
    (⟨0, 9⟩, []) (by decide) (by decide) (by decide)

/-- C10: every record returned by get_module_functions and by the
per-class method extraction holds exactly the four keys name, params,
ret and doc, each mapped to the captured text (the empty string when the
capture is absent); every record returned by get_classes always holds
the methods key with the extracted method list, and holds the keys name,
params and doc exactly when the corresponding captured text is
non-empty. -/
theorem claim_C10 (q : TSQueries) (contents : Str) :
    get_module_functions q contents = q.functionMatches.map (mkFnRecord contents)
    ∧ (∀ clazz, get_methods_of_class q contents clazz
        = (q.methodMatches clazz).map (mkFnRecord contents))
    ∧ (∀ m : TSMatch,
        (mkFnRecord contents m).map Prod.fst
          = [str "name", str "params", str "ret", str "doc"]
        ∧ List.lookup (str "name") (mkFnRecord contents m)
          = some (text (get_node m (str "nm")) contents)
        ∧ List.lookup (str "params") (mkFnRecord contents m)
          = some (text (get_node m (str "param")) contents)
        ∧ List.lookup (str "ret") (mkFnRecord contents m)
          = some (text (get_node m (str "ret")) contents)
        ∧ List.lookup (str "doc") (mkFnRecord contents m)
          = some (text (get_node m (str "doc")) contents))
    ∧ get_classes q contents = q.classMatches.map (mkClassDict q contents)
    ∧ (∀ m : TSMatch,
        List.lookup (str "methods") (mkClassDict q contents m)
          = some (CVal.methods (get_methods_of_class q contents (get_node m (str "clazz"))))
        ∧ List.lookup (str "name") (mkClassDict q contents m)
          = (if text (get_node m (str "cdn")) contents = [] then none
             else some (CVal.s (text (get_node m (str "cdn")) contents)))
        ∧ List.lookup (str "params") (mkClassDict q contents m)
          = (if text (get_node m (str "cds")) contents = [] then none
             else some (CVal.s (text (get_node m (str "cds")) contents)))
        ∧ List.lookup (str "doc") (mkClassDict q contents m)
          = (if text (get_node m (str "doc")) contents = [] then none
             else some (CVal.s (text (get_node m (str "doc")) contents)))) := by
  refine ⟨rfl, fun _ => rfl, fun m => ⟨rfl, rfl, rfl, rfl, rfl⟩, rfl, fun m => ?_⟩
  refine ⟨?_, ?_, ?_, ?_⟩ <;>
    · unfold mkClassDict
      by_cases h1 : text (get_node m (str "cdn")) contents = [] <;>
        by_cases h2 : text (get_node m (str "cds")) contents = [] <;>
          by_cases h3 : text (get_node m (str "doc")) contents = [] <;>
            simp [h1, h2, h3, List.lookup] <;> rfl

theorem hasRun2_cons (c : Char) (s : Str) :
    hasRun2 (c :: s) = (((c == ' ') && (s.head? == some ' ')) || hasRun2 s) := by
  cases s with
  | nil => simp [hasRun2]
  | cons d t => rfl

theorem hasRun2_append_false (x y : Str)
    (hx : hasRun2 x = false) (hy : hasRun2 y = false)
    (hb : (x.getLast? == some ' ') = false ∨ (y.head? == some ' ') = false) :
    hasRun2 (x ++ y) = false := by
  induction x with
  | nil => simpa using hy
  | cons c x ih =>
      rw [hasRun2_cons] at hx
      rw [List.cons_append, hasRun2_cons]
      simp only [Bool.or_eq_false_iff] at hx ⊢
      obtain ⟨hx1, hx2⟩ := hx
      cases x with
      | nil =>
          refine ⟨?_, by simpa using hy⟩
          rcases hb with hb | hb
          · have hc : (c == ' ') = false := by simpa [List.getLast?] using hb
            simp [hc]
          · simp [hb]
      | cons d t =>
          refine ⟨by simpa using hx1, ?_⟩
          apply ih hx2
          rcases hb with hb | hb
          · exact Or.inl (by simpa [List.getLast?_cons_cons] using hb)
          · exact Or.inr hb

theorem not_space_of_not_ws (c : Char) (h : isWsChar c = false) :
    (c == ' ') = false := by
  simp only [isWsChar, Bool.or_eq_false_iff] at h
  exact beq_eq_false_iff_ne.mpr (of_decide_eq_false h.1.1.1.1.1)

theorem head_not_space_of_strict (s : Str)
    (hh : s.head?.any isWsChar = false) :
    (s.head? == some ' ') = false := by
  cases hs : s.head? with
  | none => rfl
  | some c =>
      rw [hs, Option.any_some] at hh
      exact not_space_of_not_ws c hh

theorem last_not_space_of_strict (s : Str)
    (hl : s.getLast?.any isWsChar = false) :
    (s.getLast? == some ' ') = false := by
  cases hs : s.getLast? with
  | none => rfl
  | some c =>
      rw [hs, Option.any_some] at hl
      exact not_space_of_not_ws c hl

theorem getLast?_cons_ne_nil (c : Char) (y : Str) (hy : y ≠ []) :
    (c :: y).getLast? = y.getLast? := by
  cases y with
  | nil => exact absurd rfl hy
  | cons d t => exact List.getLast?_cons_cons

theorem pyReplace2Space_eq_self (s : Str) (h : hasRun2 s = false) :
    pyReplace2Space s = s := by
  induction s using pyReplace2Space.induct with
  | case1 => rfl
  | case2 c => rfl
  | case3 c d rest hc ih =>
      rw [hasRun2_cons] at h
      simp only [Bool.or_eq_false_iff] at h
      exact absurd h.1 (by simp [hc.1, hc.2])
  | case4 c d rest hc ih =>
      rw [pyReplace2Space, if_neg hc]
      rw [hasRun2_cons] at h
      simp only [Bool.or_eq_false_iff] at h
      rw [ih h.2]

theorem pyReplace2Space_skip (a y : Str) (ha : hasRun2 a = false)
    (hl : (a.getLast? == some ' ') = false) :
    pyReplace2Space (a ++ ' ' :: ' ' :: y) = a ++ ' ' :: pyReplace2Space y := by
  induction a with
  | nil =>
      rw [List.nil_append, List.nil_append, pyReplace2Space, if_pos ⟨rfl, rfl⟩]
  | cons c a ih =>
      cases a with
      | nil =>
          have hc : (c == ' ') = false := by simpa [List.getLast?] using hl
          have hc' : ¬ c = ' ' := by simpa using hc
          rw [List.cons_append, List.nil_append, pyReplace2Space,
            if_neg (fun hp => hc' hp.1), pyReplace2Space, if_pos ⟨rfl, rfl⟩]
          rfl
      | cons d t =>
          rw [hasRun2_cons] at ha
          simp only [Bool.or_eq_false_iff] at ha
          obtain ⟨ha1, ha2⟩ := ha
          have hnc : ¬ (c = ' ' ∧ d = ' ') := by
            intro hp
            rw [hp.1, hp.2] at ha1
            simp at ha1
          rw [List.cons_append, List.cons_append, pyReplace2Space, if_neg hnc]
          rw [← List.cons_append, ih ha2 (by simpa [List.getLast?_cons_cons] using hl)]
          rfl

theorem dropWhile_eq_self_of_head (p : Char → Bool) (s : Str)
    (h : s.head?.any p = false) : s.dropWhile p = s := by
  cases s with
  | nil => rfl
  | cons c t =>
      rw [List.dropWhile_cons]
      simp only [List.head?_cons, Option.any_some] at h
      simp [h]

theorem pyStrip_eq_self (s : Str) (h1 : s.head?.any isWsChar = false)
    (h2 : s.getLast?.any isWsChar = false) : pyStrip s = s := by
  unfold pyStrip
  rw [dropWhile_eq_self_of_head _ _ h1]
  rw [dropWhile_eq_self_of_head _ _ (by rw [List.head?_reverse]; exact h2)]
  exact List.reverse_reverse s

theorem pyStrip_cons_ws (c : Char) (s : Str) (h : isWsChar c = true) :
    pyStrip (c :: s) = pyStrip s := by
  unfold pyStrip
  rw [List.dropWhile_cons]
  simp [h]

theorem pyStrip_append_ws (s : Str) (c : Char) (h : isWsChar c = true) :
    pyStrip (s ++ [c]) = pyStrip s := by
  unfold pyStrip
  rw [List.dropWhile_append]
  by_cases he : (s.dropWhile isWsChar).isEmpty
  · rw [if_pos he]
    rw [List.isEmpty_iff] at he
    rw [he]
    simp [List.dropWhile_cons, h]
  · rw [if_neg he]
    rw [List.reverse_append]
    simp only [List.reverse_cons, List.reverse_nil, List.nil_append, List.singleton_append]
    rw [List.dropWhile_cons]
    simp [h]

theorem FragStrict.join_sp (x y : Str) (hx : FragStrict x) (hy : FragStrict y) :
    FragStrict (x ++ ' ' :: y) := by
  obtain ⟨hxne, hxh, hxl, hxr⟩ := hx
  obtain ⟨hyne, hyh, hyl, hyr⟩ := hy
  refine ⟨by simp, ?_, ?_, ?_⟩
  · rw [List.head?_append_of_ne_nil _ hxne]
    exact hxh
  · rw [List.getLast?_append_of_ne_nil _ (by simp), getLast?_cons_ne_nil _ _ hyne]
    exact hyl
  · apply hasRun2_append_false x (' ' :: y) hxr
    · rw [hasRun2_cons]
      simp [head_not_space_of_strict y hyh, hyr]
    · exact Or.inl (last_not_space_of_strict x hxl)

theorem FragStrict.append_opt (x y : Str) (hx : FragStrict x) (hy : FragOpt y) :
    FragStrict (x ++ y) := by
  rcases hy with rfl | hy
  · simpa using ⟨hx.1, hx.2.1, hx.2.2.1, hx.2.2.2⟩
  · obtain ⟨hxne, hxh, hxl, hxr⟩ := hx
    obtain ⟨hyne, hyh, hyl, hyr⟩ := hy
    refine ⟨by simp [hxne], ?_, ?_, ?_⟩
    · rw [List.head?_append_of_ne_nil _ hxne]
      exact hxh
    · rw [List.getLast?_append_of_ne_nil _ hyne]
      exact hyl
    · exact hasRun2_append_false x y hxr hyr (Or.inl (last_not_space_of_strict x hxl))

theorem FragStrict.parens (mn mp : Str) (h1 : FragStrict mn) (h2 : FragOpt mp) :
    FragStrict (mn ++ '(' :: (mp ++ [')'])) := by
  apply FragStrict.append_opt mn _ h1
  right
  have hmp : hasRun2 mp = false := by
    rcases h2 with rfl | h2
    · rfl
    · exact h2.2.2.2
  refine ⟨by simp, by rw [List.head?_cons]; decide, ?_, ?_⟩
  · rw [getLast?_cons_ne_nil _ _ (by simp), List.getLast?_append_of_ne_nil _ (by simp)]
    rfl
  · rw [hasRun2_cons]
    have h3 : hasRun2 (mp ++ [')']) = false := by
      apply hasRun2_append_false mp [')'] hmp rfl
      exact Or.inr (by rfl)
    have h4 : ((mp ++ [')']).head? == some ' ') = false := by
      rcases h2 with rfl | h2
      · rfl
      · rw [List.head?_append_of_ne_nil _ h2.1]
        exact head_not_space_of_strict mp h2.2.1
    simp [h3, h4]

theorem stripReplace_opt_strict (a z : Str) (ha : FragOpt a) (hz : FragStrict z) :
    hasRun2 (pyReplace2Space (pyStrip (a ++ ' ' :: z))) = false := by
  rcases ha with rfl | ha
  · rw [List.nil_append, pyStrip_cons_ws _ _ (by decide),
      pyStrip_eq_self z hz.2.1 hz.2.2.1, pyReplace2Space_eq_self z hz.2.2.2]
    exact hz.2.2.2
  · have hj : FragStrict (a ++ ' ' :: z) := FragStrict.join_sp a z ha hz
    rw [pyStrip_eq_self _ hj.2.1 hj.2.2.1, pyReplace2Space_eq_self _ hj.2.2.2]
    exact hj.2.2.2

theorem stripReplace_opt_strict_gap (a z1 z2 : Str) (ha : FragOpt a)
    (h1 : FragStrict z1) (h2 : FragStrict z2) :
    hasRun2 (pyReplace2Space (pyStrip ((a ++ ' ' :: z1) ++ ' ' :: ' ' :: z2))) = false := by
  rcases ha with rfl | ha
  · rw [List.nil_append, List.cons_append, pyStrip_cons_ws _ _ (by decide)]
    rw [pyStrip_eq_self (z1 ++ ' ' :: ' ' :: z2) ?hh ?hl]
    case hh =>
      rw [List.head?_append_of_ne_nil _ h1.1]
      exact h1.2.1
    case hl =>
      rw [List.getLast?_append_of_ne_nil _ (by simp),
        getLast?_cons_ne_nil _ _ (by simp), getLast?_cons_ne_nil _ _ h2.1]
      exact h2.2.2.1
    rw [pyReplace2Space_skip z1 z2 h1.2.2.2 (last_not_space_of_strict z1 h1.2.2.1),
      pyReplace2Space_eq_self z2 h2.2.2.2]
    exact (FragStrict.join_sp z1 z2 h1 h2).2.2.2
  · have hj : FragStrict (a ++ ' ' :: z1) := FragStrict.join_sp a z1 ha h1
    rw [pyStrip_eq_self ((a ++ ' ' :: z1) ++ ' ' :: ' ' :: z2) ?hh ?hl]
    case hh =>
      rw [List.head?_append_of_ne_nil _ hj.1]
      exact hj.2.1
    case hl =>
      rw [List.getLast?_append_of_ne_nil _ (by simp),
        getLast?_cons_ne_nil _ _ (by simp), getLast?_cons_ne_nil _ _ h2.1]
      exact h2.2.2.1
    rw [pyReplace2Space_skip _ z2 hj.2.2.2 (last_not_space_of_strict _ hj.2.2.1),
      pyReplace2Space_eq_self z2 h2.2.2.2]
    exact (FragStrict.join_sp _ z2 hj h2).2.2.2

theorem stripReplace_opt_opt_strict (a g z : Str) (ha : FragOpt a) (hg : FragOpt g)
    (hz : FragStrict z) :
    hasRun2 (pyReplace2Space (pyStrip (a ++ ' ' :: g ++ ' ' :: z))) = false := by
  rcases hg with rfl | hg
  · rcases ha with rfl | ha
    · have he : ([] : Str) ++ ' ' :: ([] : Str) ++ ' ' :: z = ' ' :: ' ' :: z := by simp
      rw [he, pyStrip_cons_ws _ _ (by decide), pyStrip_cons_ws _ _ (by decide),
        pyStrip_eq_self z hz.2.1 hz.2.2.1, pyReplace2Space_eq_self z hz.2.2.2]
      exact hz.2.2.2
    · have he : a ++ ' ' :: ([] : Str) ++ ' ' :: z = (a ++ [' ']) ++ ' ' :: z := by simp
      rw [he]
      have he2 : (a ++ [' ']) ++ ' ' :: z = a ++ ' ' :: ' ' :: z := by simp
      rw [he2, pyStrip_eq_self (a ++ ' ' :: ' ' :: z) ?hh ?hl]
      case hh =>
        rw [List.head?_append_of_ne_nil _ ha.1]
        exact ha.2.1
      case hl =>
        rw [List.getLast?_append_of_ne_nil _ (by simp),
          getLast?_cons_ne_nil _ _ (by simp), getLast?_cons_ne_nil _ _ hz.1]
        exact hz.2.2.1
      rw [pyReplace2Space_skip a z ha.2.2.2 (last_not_space_of_strict a ha.2.2.1),
        pyReplace2Space_eq_self z hz.2.2.2]
      exact (FragStrict.join_sp a z ha hz).2.2.2
  · have he : a ++ ' ' :: g ++ ' ' :: z = a ++ ' ' :: (g ++ ' ' :: z) := by simp
    rw [he]
    exact stripReplace_opt_strict a (g ++ ' ' :: z) ha (FragStrict.join_sp g z hg hz)

/-- C4: in every rendered entity or member signature of the Java
indexer, a double space arising from an absent optional clause
(modifiers, generics, extends, implements or throws fragment empty) is
collapsed into exactly one space: given well-formed fragments, the
stripped and replaced signature holds no two adjacent spaces. -/
theorem claim_C4
    (modifiers node_type name type_parameters extends_clause implements_clause
      method_modifiers method_type_parameters return_type method_name method_params
      throws_clause field_modifiers field_type field_name
      constructor_modifiers constructor_name constructor_params : Str)
    (hmo : FragOpt modifiers) (hnt : FragStrict node_type) (hnm : FragStrict name)
    (htp : FragOpt type_parameters) (hex : FragOpt extends_clause)
    (him : FragOpt implements_clause)
    (hmm : FragOpt method_modifiers) (hmtp : FragOpt method_type_parameters)
    (hrt : FragStrict return_type) (hmn : FragStrict method_name)
    (hmp : FragOpt method_params) (htc : FragOpt throws_clause)
    (hfm : FragOpt field_modifiers) (hft : FragStrict field_type)
    (hfn : FragStrict field_name)
    (hcm : FragOpt constructor_modifiers) (hcn : FragStrict constructor_name)
    (hcp : FragOpt constructor_params) :
    hasRun2 (classSignature modifiers node_type name type_parameters
        extends_clause implements_clause) = false
    ∧ hasRun2 (methodSignature method_modifiers method_type_parameters return_type
        method_name method_params throws_clause) = false
    ∧ hasRun2 (fieldSignature field_modifiers field_type field_name) = false
    ∧ hasRun2 (constructorSignature constructor_modifiers constructor_name
        constructor_params throws_clause) = false := by
  refine ⟨?_, ?_, ?_, ?_⟩
  · unfold classSignature
    rcases hex with rfl | hex <;> rcases him with rfl | him
    · have he : modifiers ++ ' ' :: node_type ++ ' ' :: name ++ type_parameters
            ++ ' ' :: ([] : Str) ++ ' ' :: ([] : Str)
          = ((modifiers ++ ' ' :: (node_type ++ ' ' :: (name ++ type_parameters)))
              ++ [' ']) ++ [' '] := by
        simp
      rw [he, pyStrip_append_ws _ _ (by decide), pyStrip_append_ws _ _ (by decide)]
      exact stripReplace_opt_strict modifiers _ hmo
        (FragStrict.join_sp _ _ hnt (FragStrict.append_opt _ _ hnm htp))
    · have := stripReplace_opt_strict_gap modifiers
        (node_type ++ ' ' :: (name ++ type_parameters)) implements_clause hmo
        (FragStrict.join_sp _ _ hnt (FragStrict.append_opt _ _ hnm htp)) him
      simpa using this
    · have he : modifiers ++ ' ' :: node_type ++ ' ' :: name ++ type_parameters
            ++ ' ' :: extends_clause ++ ' ' :: ([] : Str)
          = (modifiers ++ ' ' :: (node_type
              ++ ' ' :: ((name ++ type_parameters) ++ ' ' :: extends_clause))) ++ [' '] := by
        simp
      rw [he, pyStrip_append_ws _ _ (by decide)]
      exact stripReplace_opt_strict modifiers _ hmo
        (FragStrict.join_sp _ _ hnt
          (FragStrict.join_sp _ _ (FragStrict.append_opt _ _ hnm htp) hex))
    · have := stripReplace_opt_strict modifiers
        (node_type ++ ' ' :: ((name ++ type_parameters)
          ++ ' ' :: (extends_clause ++ ' ' :: implements_clause))) hmo
        (FragStrict.join_sp _ _ hnt
          (FragStrict.join_sp _ _ (FragStrict.append_opt _ _ hnm htp)
            (FragStrict.join_sp _ _ hex him)))
      simpa using this
  · unfold methodSignature
    rcases htc with rfl | htc
    · have he : method_modifiers ++ ' ' :: method_type_parameters ++ ' ' :: return_type
            ++ ' ' :: method_name ++ '(' :: method_params ++ ')' :: ' ' :: ([] : Str)
          = (method_modifiers ++ ' ' :: method_type_parameters
              ++ ' ' :: (return_type
                ++ ' ' :: (method_name ++ '(' :: (method_params ++ [')'])))) ++ [' '] := by
        simp
      rw [he, pyStrip_append_ws _ _ (by decide)]
      exact stripReplace_opt_opt_strict _ _ _ hmm hmtp
        (FragStrict.join_sp _ _ hrt (FragStrict.parens _ _ hmn hmp))
    · have := stripReplace_opt_opt_strict method_modifiers method_type_parameters
        (return_type ++ ' ' :: ((method_name ++ '(' :: (method_params ++ [')']))
          ++ ' ' :: throws_clause)) hmm hmtp
        (FragStrict.join_sp _ _ hrt
          (FragStrict.join_sp _ _ (FragStrict.parens _ _ hmn hmp) htc))
      simpa using this
  · unfold fieldSignature
    have := stripReplace_opt_strict field_modifiers (field_type ++ ' ' :: field_name)
      hfm (FragStrict.join_sp _ _ hft hfn)
    simpa using this
  · unfold constructorSignature
    rcases htc with rfl | htc
    · have he : constructor_modifiers ++ ' ' :: constructor_name
            ++ '(' :: constructor_params ++ ')' :: ' ' :: ([] : Str)
          = (constructor_modifiers
              ++ ' ' :: (constructor_name ++ '(' :: (constructor_params ++ [')'])))
            ++ [' '] := by
        simp
      rw [he, pyStrip_append_ws _ _ (by decide)]
      exact stripReplace_opt_strict _ _ hcm (FragStrict.parens _ _ hcn hcp)
    · have := stripReplace_opt_strict constructor_modifiers
        ((constructor_name ++ '(' :: (constructor_params ++ [')']))
          ++ ' ' :: throws_clause) hcm
        (FragStrict.join_sp _ _ (FragStrict.parens _ _ hcn hcp) htc)
      simpa using this

/-- C4 witness at concrete well-formed fragments, with the generics,
extends and throws clauses absent. -/
theorem claim_C4_witness :
    hasRun2 (classSignature (str "public") (str "class") (str "Foo") (str "<T, U>")
        [] (str "implements Runnable")) = false
    ∧ hasRun2 (methodSignature (str "public static") [] (str "void") (str "run")
        (str "int x") []) = false
    ∧ hasRun2 (fieldSignature [] (str "int") (str "count")) = false
    ∧ hasRun2 (constructorSignature (str "public") (str "Foo") [] []) = false :=
  claim_C4 (str "public") (str "class") (str "Foo") (str "<T, U>") []
    (str "implements Runnable") (str "public static") [] (str "void") (str "run")
    (str "int x") [] [] (str "int") (str "count") (str "public") (str "Foo") []
    (by decide) (by decide) (by decide) (by decide) (by decide) (by decide)
    (by decide) (by decide) (by decide) (by decide) (by decide) (by decide)
    (by decide) (by decide) (by decide) (by decide) (by decide) (by decide)
